import Mathlib

/-!
Verification of the rust-mustache render engine (src/data.rs, src/template.rs)
against its natural-language specification.

Shallow embedding conventions:
* Rust `Data` (data.rs) becomes the inductive `Data` below.  `Data::String`,
  `Data::Vec`, `Data::Map` are named `Str`, `Vec`, `Map` here because `String`
  and `Bool` as constructor names would collide with the Lean types of their
  own arguments.  `HashMap<String, Data>` is modelled as an association list
  with first-match lookup (keys are unique in the source by the HashMap
  invariant).  `Data::Fun(RefCell<Box<dyn FnMut(String) -> String>>)` is
  modelled as a pure function `String → String`; no claim depends on the
  closure's internal mutable state.
* The render stack `Vec<&Data>` is modelled as `List Data` with the head of
  the list being the innermost (most recently pushed) entry, so `Vec::push`
  is `cons`, `Vec::pop` is `tail`, `Vec::last()` is `head?`, and
  `stack.iter().rev()` is plain left-to-right traversal.
* Output bytes written to the `Write` sink are modelled as the `String` of
  characters produced; every byte the renderer treats specially (the five
  HTML sentinels and `\n`) is a single-byte ASCII character, so the byte
  transformations of the source coincide with the character transformations
  used here.
* The functions of `RenderContext` are mutually recursive through lambda
  re-expansion and partials, and that recursion is genuinely unbounded in
  the source (the spec notes a lambda can recurse without bound).  The
  embedding therefore threads a `fuel` budget that is consumed exactly at
  the two re-entry points that are not structurally decreasing: rendering
  the tokens produced by a lambda, and rendering a partial's body.  Running
  out of fuel yields the artificial `Error.OutOfFuel`, which models
  non-termination of the source, not any source error.
* The `bug!` logging macro is modelled, where a claim depends on it, as an
  explicit log channel: `dataEq` returns the Boolean result paired with the
  list of logged messages.
* The `cfg(feature = "CFEngine")` code paths are conditionally compiled out
  in the default build and are not part of the embedding.
-/

namespace Mustache

/-- Rust `enum Data` from src/data.rs.  Constructors `Str` and `Boolean`
model `Data::String` and `Data::Bool` (the Rust names collide in Lean with
the types of their own arguments); `Vec`, `Map`, `Fun` model `Data::Vec`,
`Data::Map`, `Data::Fun`. -/
inductive Data where
  | Null : Data
  | Str : String → Data
  | Boolean : Bool → Data
  | Vec : List Data → Data
  | Map : List (String × Data) → Data
  | Fun : (String → String) → Data

/-- True exactly for `Data::Fun` values (a `Producer` in the spec's words). -/
def Data.isProducer : Data → Bool
  | .Fun _ => true
  | _ => false

mutual

/-- Rust `impl PartialEq for Data` from src/data.rs, with the `bug!` log
channel made explicit: the second component is the list of messages logged
during the comparison.  `vecEq` models slice equality (length check, then
element-wise comparison that stops at the first mismatch); `mapEq` models
`HashMap` equality (length check, then for each key of the left map, look the
key up on the right and compare the values, stopping at the first mismatch). -/
def dataEq : Data → Data → Bool × List String
  | .Null, .Null => (true, [])
  | .Str v0, .Str v1 => (v0 == v1, [])
  | .Boolean v0, .Boolean v1 => (v0 == v1, [])
  | .Vec v0, .Vec v1 => if v0.length = v1.length then vecEq v0 v1 else (false, [])
  | .Map v0, .Map v1 => if v0.length = v1.length then mapEq v0 v1 else (false, [])
  | .Fun _, .Fun _ => (false, ["Cannot compare closures"])
  | _, _ => (false, [])
termination_by d _ => sizeOf d

/-- Element-wise slice equality used by `dataEq` on `Data::Vec` (after the
length check), stopping at the first mismatch. -/
def vecEq : List Data → List Data → Bool × List String
  | [], _ => (true, [])
  | _ :: _, [] => (false, [])
  | x :: xs, y :: ys =>
    let r := dataEq x y
    if r.1 then
      let r2 := vecEq xs ys
      (r2.1, r.2 ++ r2.2)
    else (false, r.2)
termination_by l _ => sizeOf l

/-- Key-wise `HashMap` equality used by `dataEq` on `Data::Map` (after the
length check), stopping at the first mismatch. -/
def mapEq : List (String × Data) → List (String × Data) → Bool × List String
  | [], _ => (true, [])
  | (k, v) :: rest, other =>
    match other.lookup k with
    | none => (false, [])
    | some v2 =>
      let r := dataEq v v2
      if r.1 then
        let r2 := mapEq rest other
        (r2.1, r.2 ++ r2.2)
      else (false, r.2)
termination_by l _ => sizeOf l

end

/-- RenderContext::find from src/template.rs: the scan of the stack from
innermost to outermost for the first `Data::Map` containing the first path
segment (the `for data in stack.iter().rev()` loop). -/
def findScan (key : String) : List Data → Option Data
  | [] => none
  | d :: ds =>
    match d with
    | .Map m =>
      match m.lookup key with
      | some v => some v
      | none => findScan key ds
    | _ => findScan key ds

/-- RenderContext::find from src/template.rs: the walk of the remaining path
segments (`for part in path[1..].iter()`), requiring a `Data::Map` containing
the segment at every step. -/
def findWalk : List String → Data → Option Data
  | [], value => some value
  | p :: ps, value =>
    match value with
    | .Map m =>
      match m.lookup p with
      | some v => findWalk ps v
      | none => none
    | _ => none

/-- RenderContext::find from src/template.rs.  An empty path returns the top
of the stack; otherwise the base is located by `findScan` and the remaining
segments are walked by `findWalk`. -/
def find (path : List String) (stack : List Data) : Option Data :=
  match path with
  | [] => stack.head?
  | p :: rest =>
    match findScan p stack with
    | none => none
    | some value => findWalk rest value

/-- Looking a key up in a value when that value is a `Mapping`; `none` for
every other variant.  Used by the spec-side resolver below. -/
def mapGet : Data → String → Option Data
  | .Map m, k => m.lookup k
  | _, _ => none

/-- Spec §4.1, stated in the spec's words: walk the remaining path segments
from the base value, requiring at each step that the current value is a
`Mapping` containing the next segment as key. -/
def walkSpec : List String → Data → Option Data
  | [], v => some v
  | p :: ps, v =>
    match mapGet v p with
    | none => none
    | some v2 => walkSpec ps v2

/-- Spec §4.1 `resolve`, stated in the spec's words: empty path returns the
top of the stack (`none` when the stack is empty); a non-empty path scans the
stack from innermost to outermost for the first entry that is a `Mapping`
containing `path[0]` as a key (its value at `path[0]` is the base value;
`none` when no such entry exists) and then walks `path[1..]` from the base
value.  Resolution is a total function: it never raises. -/
def resolveSpec (path : List String) (stack : List Data) : Option Data :=
  match path with
  | [] => stack.head?
  | p :: rest =>
    match stack.find? (fun d => (mapGet d p).isSome) with
    | none => none
    | some entry =>
      match mapGet entry p with
      | none => none
      | some base => walkSpec rest base

/-- Token tree consumed by the renderer.  The parser that produces it lives
outside the render engine (crate::parser); the constructor shapes are taken
from how src/template.rs matches on them in `render_token` and
`render_section`.  Fields that the renderer matches with `_` (the second
components of the tag tokens, `otag`/`osection` of `Section`, the trailing
component of `Partial`, and the payload of `IncompleteSection`) carry no
behaviour; they are kept so that all constructor arities are honest.
`Section`'s last field `fdata` holds, in the source's order, the section's
open delimiter (`fdata[0]`), captured raw source text (`fdata[1]`) and close
delimiter (`fdata[2]`). -/
inductive Token where
  | Text : String → Token
  | EscapedTag : List String → String → Token
  | UnescapedTag : List String → String → Token
  | Section : List String → Bool → List Token → String → String → List String → Token
  | Partial : String → String → String → Token
  | IncompleteSection : List String → Bool → String → Bool → Token
deriving Repr

/-- Render-time errors of the engine.  `IncompleteSection` is
`Error::IncompleteSection`; `CompileFailed` stands for any error the external
compiler returns during lambda re-expansion; `OutOfFuel` is the modelling
artifact signalling exhaustion of the recursion budget (the source simply
recurses, possibly without bound). -/
inductive Error where
  | IncompleteSection : Error
  | CompileFailed : String → Error
  | OutOfFuel : Error
deriving Repr, DecidableEq

/-- Rust `struct Template` from src/template.rs.  `compile` is
Modelled from the spec: the external compiler of §6 reached through the
template's `ctx` (`Compiler::new_with(ctx, src, partials, otag, ctag)`
followed by `compile()`), which is not part of the two source files; it is
kept abstract as a field taking the partials mapping, the source text and the
open/close delimiters.  `partials` is the `HashMap<String, Vec<Token>>` of
the source as an association list. -/
structure Template where
  compile : List (String × List Token) → String → String → String → Except Error (List Token)
  tokens : List Token
  partials : List (String × List Token)

/-- Rust `struct RenderContext` (without the template borrow, which is passed
separately).  `anchor` models the source field `at` (`at` is a Lean keyword). -/
structure RenderContext where
  indent : String
  line_start : Bool
  anchor : String
deriving Repr, DecidableEq

/-- RenderContext::new from src/template.rs. -/
def RenderContext.new : RenderContext :=
  { indent := "", line_start := true, anchor := "" }

/-- RenderContext::write_tracking_newlines: emit `value` and update the
line-start flag from its last character (unchanged when `value` is empty). -/
def writeTrackingNewlines (rc : RenderContext) (value : String) :
    RenderContext × String :=
  let ls :=
    match value.data.getLast? with
    | none => rc.line_start
    | some '\n' => true
    | some _ => false
  ({ rc with line_start := ls }, value)

/-- RenderContext::write_indent: emit the indent prefix when at the start of
a line (the line-start flag itself is not updated). -/
def writeIndent (rc : RenderContext) : String :=
  if rc.line_start then rc.indent else ""

/-- The line splitter inside RenderContext::render_text: cut the text into
chunks each extending up to and including the next newline (the final chunk
may lack one). -/
def splitKeepNewlines : List Char → List (List Char)
  | [] => []
  | c :: cs =>
    match (c :: cs).findIdx? (· = '\n') with
    | none => [c :: cs]
    | some i => (c :: cs).take (i + 1) :: splitKeepNewlines ((c :: cs).drop (i + 1))
termination_by s => s.length
decreasing_by simp [List.length_drop]; omega

/-- RenderContext::render_text: with no active indent the text goes through
`write_tracking_newlines` verbatim; otherwise each line is emitted with
`write_indent` in front unless the line begins with a newline. -/
def renderText (rc : RenderContext) (value : String) : RenderContext × String :=
  if rc.indent = "" then writeTrackingNewlines rc value
  else
    (splitKeepNewlines value.data).foldl
      (fun acc line =>
        let ind := if line.head? = some '\n' then "" else writeIndent acc.1
        let r := writeTrackingNewlines acc.1 (String.mk line)
        (r.1, acc.2 ++ ind ++ r.2))
      (rc, "")

/-- The per-byte HTML escaping table of RenderContext::render_etag (all five
sentinels are single-byte ASCII, so the byte mapping of the source is the
character mapping here). -/
def escapeChar : Char → List Char
  | '<' => ['&', 'l', 't', ';']
  | '>' => ['&', 'g', 't', ';']
  | '&' => ['&', 'a', 'm', 'p', ';']
  | '"' => ['&', 'q', 'u', 'o', 't', ';']
  | '\'' => ['&', '#', '3', '9', ';']
  | c => [c]

/-- The escaping loop of RenderContext::render_etag applied to a whole
buffer. -/
def escapeHtml (s : String) : String :=
  String.mk (List.flatten (s.data.map escapeChar))

/-- Indexing into the `fdata` slice of a `Section` token (`&fdata[i]` in the
source; well-formed sections carry exactly three entries). -/
def getStr (l : List String) (i : Nat) : String := l.getD i ""

/-- RenderContext::render_fun: apply the producer to the captured source text
and hand its output to the external compiler together with the template's
current partials mapping and the given delimiter pair. -/
def renderFun (t : Template) (src otag ctag : String) (f : String → String) :
    Except Error (List Token) :=
  t.compile t.partials (f src) otag ctag

/-- The `for (i, v) in vs.iter().enumerate()` loop of
RenderContext::render_section on a `Data::Vec` value: push the element, set
the anchor to the decimal index, render the children (passed in as
`body`), pop, clear the anchor, and continue with the next element. -/
def sectionSeqLoop
    (body : RenderContext → List Data → Except Error (RenderContext × List Data × String)) :
    RenderContext → List Data → Nat → List Data →
    Except Error (RenderContext × List Data × String)
  | rc, stack, _, [] => .ok (rc, stack, "")
  | rc, stack, i, v :: vs => do
    let (rc1, st1, o1) ← body { rc with anchor := toString i } (v :: stack)
    let (rc2, st2, o2) ←
      sectionSeqLoop body { rc1 with anchor := "" } st1.tail (i + 1) vs
    .ok (rc2, st2, o1 ++ o2)

/-- The recursive entry points of the render engine, used to express the
mutually recursive functions of RenderContext as a single Lean function
(`exec` below) with one lexicographic termination measure. -/
inductive RCall where
  | toks : List Token → RCall
  | tok : Token → RCall
  | etag : List String → RCall
  | utag : List String → RCall
  | inv : List String → List Token → RCall
  | sec : List String → List Token → List String → RCall
  | part : String → String → RCall

mutual

/-- Structural size of a token, used only in the termination measure of the
render engine below. -/
def Token.size : Token → Nat
  | .Section _ _ children _ _ _ => Token.sizeList children + 3
  | _ => 2

/-- Structural size of a token list, used only in the termination measure of
the render engine below. -/
def Token.sizeList : List Token → Nat
  | [] => 0
  | tk :: rest => Token.size tk + Token.sizeList rest + 1

end

/-- Termination weight of a call; fuel is compared first, this second. -/
def RCall.weight : RCall → Nat
  | .toks ts => Token.sizeList ts
  | .tok tk => Token.size tk
  | .etag _ => 1
  | .utag _ => 0
  | .inv _ children => Token.sizeList children + 1
  | .sec _ children _ => Token.sizeList children + 1
  | .part _ _ => 0

/-- The render engine of src/template.rs.  Each `RCall` case transcribes one
function of `impl RenderContext`:

* `.toks`  — `render` (the loop over a token list);
* `.tok`   — `render_token` (dispatch on the token kind);
* `.etag`  — `render_etag` (render the path unescaped into a scratch buffer,
  then emit it through the escaping table);
* `.utag`  — `render_utag` (resolve the path; on a hit write the indent, then
  emit text/bool content, re-expand a lambda with the default `\x7b\x7b`
  `\x7d\x7d` delimiters and empty source, drop `Null`, and log-and-skip the
  collection variants);
* `.inv`   — `render_inverted_section`;
* `.sec`   — `render_section`;
* `.part`  — `render_partial` (missing partials render nothing; otherwise the
  per-occurrence indent is appended to the active prefix for the duration of
  the recursive render, and the prefix is restored afterwards).

The result is the updated render context, the render stack after the call
(threaded explicitly so that the push/pop discipline of the source is
visible), and the text appended to the output sink.  `fuel` is consumed
exactly where the source recursion is not structural: rendering tokens
compiled from a lambda's output, and rendering a partial's body. -/
def exec (t : Template) (fuel : Nat) (call : RCall) (rc : RenderContext)
    (stack : List Data) : Except Error (RenderContext × List Data × String) :=
  match call with
  | .toks [] => .ok (rc, stack, "")
  | .toks (tk :: rest) => do
    let (rc1, st1, o1) ← exec t fuel (.tok tk) rc stack
    let (rc2, st2, o2) ← exec t fuel (.toks rest) rc1 st1
    .ok (rc2, st2, o1 ++ o2)
  | .tok (.Text value) =>
    let r := renderText rc value
    .ok (r.1, stack, r.2)
  | .tok (.EscapedTag path _) => exec t fuel (.etag path) rc stack
  | .tok (.UnescapedTag path _) => exec t fuel (.utag path) rc stack
  | .tok (.Section path true children _ _ _) => exec t fuel (.inv path children) rc stack
  | .tok (.Section path false children _ _ fdata) =>
    exec t fuel (.sec path children fdata) rc stack
  | .tok (.Partial name indent _) => exec t fuel (.part name indent) rc stack
  | .tok (.IncompleteSection _ _ _ _) => .error .IncompleteSection
  | .etag path => do
    let (rc1, st1, bytes) ← exec t fuel (.utag path) rc stack
    .ok (rc1, st1, escapeHtml bytes)
  | .utag path =>
    match find path stack with
    | none => .ok (rc, stack, "")
    | some value =>
      let ind := writeIndent rc
      match value with
      | .Null => .ok (rc, stack, ind)
      | .Str s =>
        let r := writeTrackingNewlines rc s
        .ok (r.1, stack, ind ++ r.2)
      | .Boolean b =>
        let r := writeTrackingNewlines rc (toString b)
        .ok (r.1, stack, ind ++ r.2)
      | .Fun f =>
        match fuel with
        | 0 => .error .OutOfFuel
        | fuel' + 1 => do
          let tokens ← renderFun t "" "\x7b\x7b" "\x7d\x7d" f
          let (rc1, st1, o) ← exec t fuel' (.toks tokens) rc stack
          .ok (rc1, st1, ind ++ o)
      | _ => .ok (rc, stack, ind)
  | .inv path children =>
    match find path stack with
    | none => exec t fuel (.toks children) rc stack
    | some .Null => exec t fuel (.toks children) rc stack
    | some (.Boolean false) => exec t fuel (.toks children) rc stack
    | some (.Vec []) => exec t fuel (.toks children) rc stack
    | some _ => .ok (rc, stack, "")
  | .sec path children fdata =>
    match find path stack with
    | none => .ok (rc, stack, "")
    | some value =>
      match value with
      | .Null => .ok (rc, stack, "")
      | .Boolean true => exec t fuel (.toks children) rc stack
      | .Boolean false => .ok (rc, stack, "")
      | .Str val =>
        if val ≠ "" then do
          let (rc1, st1, o) ← exec t fuel (.toks children) rc (value :: stack)
          .ok (rc1, st1.tail, o)
        else .ok (rc, stack, "")
      | .Vec vs =>
        sectionSeqLoop (fun rc' st' => exec t fuel (.toks children) rc' st') rc stack 0 vs
      | .Map _ => do
        let (rc1, st1, o) ← exec t fuel (.toks children) rc (value :: stack)
        .ok (rc1, st1.tail, o)
      | .Fun f =>
        match fuel with
        | 0 => .error .OutOfFuel
        | fuel' + 1 => do
          let tokens ← renderFun t (getStr fdata 1) (getStr fdata 0) (getStr fdata 2) f
          exec t fuel' (.toks tokens) rc stack
  | .part name indent =>
    match t.partials.lookup name with
    | none => .ok (rc, stack, "")
    | some tokens =>
      match fuel with
      | 0 => .error .OutOfFuel
      | fuel' + 1 => do
        let (rc1, st1, o) ←
          exec t fuel' (.toks tokens) { rc with indent := rc.indent ++ indent } stack
        .ok ({ rc1 with indent := rc.indent }, st1, o)
termination_by (fuel, call.weight)
decreasing_by
  all_goals simp_wf
  all_goals first
    | exact Prod.Lex.left _ _ (Nat.lt_succ_self _)
    | (apply Prod.Lex.right
       simp only [RCall.weight, Token.size, Token.sizeList]
       omega)

/-- RenderContext::render — render a token list. -/
def render (t : Template) (fuel : Nat) (rc : RenderContext) (stack : List Data)
    (tokens : List Token) : Except Error (RenderContext × List Data × String) :=
  exec t fuel (.toks tokens) rc stack

/-- RenderContext::render_token — dispatch on one token. -/
def renderToken (t : Template) (fuel : Nat) (rc : RenderContext)
    (stack : List Data) (tk : Token) :
    Except Error (RenderContext × List Data × String) :=
  exec t fuel (.tok tk) rc stack

/-- RenderContext::render_etag — escaped-tag rendering. -/
def renderEtag (t : Template) (fuel : Nat) (rc : RenderContext)
    (stack : List Data) (path : List String) :
    Except Error (RenderContext × List Data × String) :=
  exec t fuel (.etag path) rc stack

/-- RenderContext::render_utag — unescaped-tag rendering. -/
def renderUtag (t : Template) (fuel : Nat) (rc : RenderContext)
    (stack : List Data) (path : List String) :
    Except Error (RenderContext × List Data × String) :=
  exec t fuel (.utag path) rc stack

/-- RenderContext::render_inverted_section. -/
def renderInvertedSection (t : Template) (fuel : Nat) (rc : RenderContext)
    (stack : List Data) (path : List String) (children : List Token) :
    Except Error (RenderContext × List Data × String) :=
  exec t fuel (.inv path children) rc stack

/-- RenderContext::render_section — plain (non-inverted) section rendering. -/
def renderSection (t : Template) (fuel : Nat) (rc : RenderContext)
    (stack : List Data) (path : List String) (children : List Token)
    (fdata : List String) : Except Error (RenderContext × List Data × String) :=
  exec t fuel (.sec path children fdata) rc stack

/-- RenderContext::render_partial. -/
def renderPartial (t : Template) (fuel : Nat) (rc : RenderContext)
    (stack : List Data) (name indent : String) :
    Except Error (RenderContext × List Data × String) :=
  exec t fuel (.part name indent) rc stack

/-- The falsy set of spec §4.3 for an inverted section's resolved value:
absent (`none`), `Null`, `Boolean false`, empty `Sequence`. -/
def isFalsy : Option Data → Bool
  | none => true
  | some .Null => true
  | some (.Boolean false) => true
  | some (.Vec []) => true
  | _ => false

/-- Spec §4.3 `Sequence(items)` rule, stated in the spec's words as amended:
for each item in order, push the item as the innermost stack entry, set the
anchor to its 0-based index as a string, render the children, pop, and clear
the anchor to the empty string (the pre-section anchor is not saved). -/
def seqSectionSpec (t : Template) (fuel : Nat) (children : List Token) :
    RenderContext → List Data → Nat → List Data →
    Except Error (RenderContext × List Data × String)
  | rc, stack, _, [] => .ok (rc, stack, "")
  | rc, stack, i, v :: vs => do
    let (rc1, st1, o1) ←
      render t fuel { rc with anchor := toString i } (v :: stack) children
    let (rc2, st2, o2) ←
      seqSectionSpec t fuel children { rc1 with anchor := "" } st1.tail (i + 1) vs
    .ok (rc2, st2, o1 ++ o2)

/-- The five sentinel characters of the HTML-escaping table. -/
def isSentinel (c : Char) : Bool :=
  c = '<' || c = '>' || c = '&' || c = '"' || c = '\''

/-- Modelled from the spec: "the standard unescape" of §8 — replace each of
the five entities `&lt; &gt; &amp; &quot; &#39;` by its character, leaving
every other character alone.  Not part of the source repository. -/
def unescapeChars : List Char → List Char
  | [] => []
  | c :: rest =>
    if c = '&' then
      if rest.take 3 = ['l', 't', ';'] then '<' :: unescapeChars (rest.drop 3)
      else if rest.take 3 = ['g', 't', ';'] then '>' :: unescapeChars (rest.drop 3)
      else if rest.take 4 = ['a', 'm', 'p', ';'] then '&' :: unescapeChars (rest.drop 4)
      else if rest.take 5 = ['q', 'u', 'o', 't', ';'] then '"' :: unescapeChars (rest.drop 5)
      else if rest.take 4 = ['#', '3', '9', ';'] then '\'' :: unescapeChars (rest.drop 4)
      else c :: unescapeChars rest
    else c :: unescapeChars rest
termination_by s => s.length
decreasing_by all_goals (simp [List.length_drop]; try omega)

/-- Modelled from the spec: the standard HTML unescape on strings. -/
def unescapeHtml (s : String) : String :=
  String.mk (unescapeChars s.data)

/-- A concrete template whose external compiler always returns the empty
token list; used by the concrete counterexamples and witnesses below. -/
def tEmpty : Template :=
  { compile := fun _ _ _ _ => .ok [], tokens := [], partials := [] }

section Claims

theorem findScan_eq_find? (key : String) (stack : List Data) :
    findScan key stack =
      (stack.find? (fun d => (mapGet d key).isSome)).bind (fun e => mapGet e key) := by
  induction stack with
  | nil => rfl
  | cons d ds ih =>
    match d with
    | .Map m =>
      cases h : m.lookup key with
      | none => simp [findScan, List.find?, mapGet, h, ih]
      | some v => simp [findScan, List.find?, mapGet, h]
    | .Null => simpa [findScan, List.find?, mapGet] using ih
    | .Str s => simpa [findScan, List.find?, mapGet] using ih
    | .Boolean b => simpa [findScan, List.find?, mapGet] using ih
    | .Vec xs => simpa [findScan, List.find?, mapGet] using ih
    | .Fun f => simpa [findScan, List.find?, mapGet] using ih

theorem findWalk_eq_walkSpec (ps : List String) :
    ∀ v : Data, findWalk ps v = walkSpec ps v := by
  induction ps with
  | nil => intro v; rfl
  | cons p ps ih =>
    intro v
    match v with
    | .Map m =>
      cases h : m.lookup p with
      | none => simp [findWalk, walkSpec, mapGet, h]
      | some v2 => simp [findWalk, walkSpec, mapGet, h, ih]
    | .Null => simp [findWalk, walkSpec, mapGet]
    | .Str s => simp [findWalk, walkSpec, mapGet]
    | .Boolean b => simp [findWalk, walkSpec, mapGet]
    | .Vec xs => simp [findWalk, walkSpec, mapGet]
    | .Fun f => simp [findWalk, walkSpec, mapGet]

/-- C1: path resolution (`find`) satisfies the spec's contract `resolveSpec`:
an empty path returns the top of the stack (`none` for the empty stack); a
non-empty path takes as base the value at `path[0]` of the first
(innermost-first) stack entry that is a `Mapping` containing `path[0]` as a
key (`none` when there is none), then walks the remaining segments requiring
a `Mapping` containing the next segment at every step.  Both sides are total
Lean functions into `Option Data`, so resolution never raises for any path
and any stack. -/
theorem C1_find_resolves_per_spec (path : List String) (stack : List Data) :
    find path stack = resolveSpec path stack := by
  match path with
  | [] => rfl
  | p :: rest =>
    simp only [find, resolveSpec, findScan_eq_find? p stack]
    cases hf : stack.find? (fun d => (mapGet d p).isSome) with
    | none => rfl
    | some entry =>
      cases hg : mapGet entry p with
      | none => simp [hg]
      | some base => simp [hg, findWalk_eq_walkSpec]

theorem escapeChar_of_not_sentinel {c : Char} (h : isSentinel c = false) :
    escapeChar c = [c] := by
  simp only [isSentinel, Bool.or_eq_false_iff, decide_eq_false_iff_not] at h
  unfold escapeChar
  split <;> simp_all

theorem escape_id_of_no_sentinel (s : List Char)
    (h : ∀ c ∈ s, isSentinel c = false) :
    List.flatten (s.map escapeChar) = s := by
  induction s with
  | nil => rfl
  | cons c cs ih =>
    simp only [List.map_cons, List.flatten_cons,
      escapeChar_of_not_sentinel (h c (by simp))]
    rw [ih (fun d hd => h d (by simp [hd]))]
    simp

theorem not_amp_of_not_sentinel {c : Char} (h : isSentinel c = false) :
    ¬ c = '&' := by
  intro hc
  subst hc
  exact absurd h (by decide)

theorem unescape_cons_of_not_amp {c : Char} (rest : List Char) (h : ¬ c = '&') :
    unescapeChars (c :: rest) = c :: unescapeChars rest := by
  simp [unescapeChars, h]

theorem unescape_id_of_no_amp (s : List Char) (h : ∀ c ∈ s, ¬ c = '&') :
    unescapeChars s = s := by
  induction s with
  | nil => simp [unescapeChars]
  | cons c cs ih =>
    rw [unescape_cons_of_not_amp cs (h c (by simp))]
    rw [ih (fun d hd => h d (by simp [hd]))]

/-- C2: escaped-tag rendering equals unescaped-tag rendering with the output
transformed by exactly the five-character HTML escaping map (`escapeHtml`:
`<` `>` `&` `"` `'` to `&lt;` `&gt;` `&amp;` `&quot;` `&#39;`, every other
character unchanged), for every template, fuel, render context, stack and
path, with errors propagated unchanged; and escaping followed by the
standard HTML unescape recovers the original text for any string containing
none of the five sentinel characters. -/
theorem C2_escape_correspondence :
    (∀ (t : Template) (fuel : Nat) (rc : RenderContext) (stack : List Data)
        (path : List String),
        renderEtag t fuel rc stack path =
          (renderUtag t fuel rc stack path).map fun r => (r.1, r.2.1, escapeHtml r.2.2)) ∧
    (∀ s : String, (∀ c ∈ s.data, isSentinel c = false) →
        unescapeHtml (escapeHtml s) = s) := by
  constructor
  · intro t fuel rc stack path
    simp only [renderEtag, renderUtag]
    cases h : exec t fuel (.utag path) rc stack with
    | error e => simp [exec, h, Except.map, Bind.bind, Except.bind]
    | ok r => simp [exec, h, Except.map, Bind.bind, Except.bind]
  · intro s h
    have hesc : escapeHtml s = s := by
      cases s with
      | mk data => exact congrArg String.mk (escape_id_of_no_sentinel data h)
    have huns : unescapeHtml s = s := by
      cases s with
      | mk data =>
        exact congrArg String.mk
          (unescape_id_of_no_amp data (fun c hc => not_amp_of_not_sentinel (h c hc)))
    rw [hesc, huns]

/-- C2 witness: the round trip at a concrete sentinel-free string. -/
theorem C2_escape_correspondence_witness :
    (∀ c ∈ "Hello, Ferris".data, isSentinel c = false) ∧
      unescapeHtml (escapeHtml "Hello, Ferris") = "Hello, Ferris" :=
  ⟨by decide, C2_escape_correspondence.2 "Hello, Ferris" (by decide)⟩

/-- C3: an inverted section renders its children, against the unchanged
render context and stack, exactly when the resolved value of its path lies
in the falsy set {absent, `Null`, `Boolean false`, empty `Sequence`}; for
every other resolved value (including the empty string, any `Mapping`,
non-empty `Sequence`, `Boolean true` and any `Producer`) it emits nothing
and succeeds. -/
theorem C3_inverted_section_falsy (t : Template) (fuel : Nat)
    (rc : RenderContext) (stack : List Data) (path : List String)
    (children : List Token) :
    renderInvertedSection t fuel rc stack path children =
      if isFalsy (find path stack) then render t fuel rc stack children
      else .ok (rc, stack, "") := by
  simp only [renderInvertedSection, render]
  cases h : find path stack with
  | none => simp [exec, h, isFalsy]
  | some v =>
    match v with
    | .Null => simp [exec, h, isFalsy]
    | .Boolean b => cases b <;> simp [exec, h, isFalsy]
    | .Vec xs => cases xs <;> simp [exec, h, isFalsy]
    | .Str s => simp [exec, h, isFalsy]
    | .Map m => simp [exec, h, isFalsy]
    | .Fun f => simp [exec, h, isFalsy]

theorem sectionSeqLoop_eq_spec (t : Template) (fuel : Nat) (children : List Token) :
    ∀ (vs : List Data) (rc : RenderContext) (stack : List Data) (i : Nat),
      sectionSeqLoop (fun rc' st' => exec t fuel (.toks children) rc' st') rc stack i vs =
        seqSectionSpec t fuel children rc stack i vs := by
  intro vs
  induction vs with
  | nil => intro rc stack i; rfl
  | cons v vs ih =>
    intro rc stack i
    simp only [sectionSeqLoop, seqSectionSpec, render, ih]

theorem seqSectionSpec_anchor (t : Template) (fuel : Nat) (children : List Token) :
    ∀ (vs : List Data) (rc : RenderContext) (stack : List Data) (i : Nat)
      (rc' : RenderContext) (st' : List Data) (out : String),
      vs ≠ [] →
      seqSectionSpec t fuel children rc stack i vs = .ok (rc', st', out) →
      rc'.anchor = "" := by
  intro vs
  induction vs with
  | nil => intro rc stack i rc' st' out hne; exact absurd rfl hne
  | cons v vs ih =>
    intro rc stack i rc' st' out _ h
    simp only [seqSectionSpec, Bind.bind, Except.bind] at h
    cases h1 : render t fuel { rc with anchor := toString i } (v :: stack) children with
    | error e => rw [h1] at h; cases h
    | ok r =>
      obtain ⟨rc1, st1, o1⟩ := r
      rw [h1] at h
      dsimp only at h
      cases vs with
      | nil =>
        simp only [seqSectionSpec] at h
        cases h
        rfl
      | cons v2 vs2 =>
        cases h2 : seqSectionSpec t fuel children { rc1 with anchor := "" }
            st1.tail (i + 1) (v2 :: vs2) with
        | error e => rw [h2] at h; cases h
        | ok r2 =>
          obtain ⟨rc2, st2, o2⟩ := r2
          rw [h2] at h
          dsimp only at h
          cases h
          exact ih _ _ _ _ _ _ (by simp) h2

/-- C4 counterexample: rendering a one-element sequence section from a
render context whose anchor is `"x"` leaves the anchor equal to `""`, not to
the `"x"` that was in effect before the section — the claim's "the anchor
that was in effect before the section is restored after the section
completes" fails on this input (the code clears the anchor instead of
restoring it). -/
theorem C4_counterexample :
    renderSection tEmpty 1 { indent := "", line_start := true, anchor := "x" }
        [Data.Map [("v", Data.Vec [Data.Null])]] ["v"] [] [] =
      .ok ({ indent := "", line_start := true, anchor := "" },
        [Data.Map [("v", Data.Vec [Data.Null])]], "") ∧
    ¬ (("" : String) = "x") := by
  constructor
  · simp [renderSection, exec, find, findScan, findWalk, sectionSeqLoop,
      Bind.bind, Except.bind]
  · decide

/-- C4 as amended: for every `Sequence` value resolved for a plain section,
the section renders its children exactly once per element, in element order,
with the element pushed as the innermost stack entry and the anchor equal to
the 0-based index formatted as a string during each iteration (this is the
content of `seqSectionSpec`, the spec-side loop); after a non-empty sequence
section completes successfully the anchor is the empty string — it is
cleared, not restored to its pre-section value (an empty sequence leaves the
context unchanged). -/
theorem C4_sequence_section_amended (t : Template) (fuel : Nat)
    (rc : RenderContext) (stack : List Data) (path : List String)
    (children : List Token) (fdata : List String) (vs : List Data)
    (h : find path stack = some (.Vec vs)) :
    renderSection t fuel rc stack path children fdata =
      seqSectionSpec t fuel children rc stack 0 vs ∧
    (∀ rc' st' out, vs ≠ [] →
      renderSection t fuel rc stack path children fdata = .ok (rc', st', out) →
      rc'.anchor = "") := by
  have heq : renderSection t fuel rc stack path children fdata =
      seqSectionSpec t fuel children rc stack 0 vs := by
    simp [renderSection, exec, h, sectionSeqLoop_eq_spec]
  refine ⟨heq, ?_⟩
  intro rc' st' out hne hok
  exact seqSectionSpec_anchor t fuel children vs rc stack 0 rc' st' out hne (heq ▸ hok)

/-- C4 witness: the amended theorem applied at a concrete one-element
sequence. -/
theorem C4_sequence_section_amended_witness :
    find ["v"] [Data.Map [("v", Data.Vec [Data.Null])]] =
      some (Data.Vec [Data.Null]) ∧
    renderSection tEmpty 1 RenderContext.new
        [Data.Map [("v", Data.Vec [Data.Null])]] ["v"] [] [] =
      seqSectionSpec tEmpty 1 [] RenderContext.new
        [Data.Map [("v", Data.Vec [Data.Null])]] 0 [Data.Null] :=
  ⟨rfl,
    (C4_sequence_section_amended tEmpty 1 RenderContext.new
      [Data.Map [("v", Data.Vec [Data.Null])]] ["v"] [] [] [Data.Null] rfl).1⟩

/-- C5 counterexample: a path that resolves to `Null`, rendered from a
context with active indent `"  "` at the start of a line, emits the two
indent bytes — the claim's "emit no output bytes at all ... regardless of
the current indentation prefix and line-start flag" fails on this input
(the source writes the indent before checking for `Null`). -/
theorem C5_counterexample :
    renderUtag tEmpty 1 { indent := "  ", line_start := true, anchor := "" }
        [Data.Map [("x", Data.Null)]] ["x"] =
      .ok ({ indent := "  ", line_start := true, anchor := "" },
        [Data.Map [("x", Data.Null)]], "  ") ∧
    ¬ (("  " : String) = "") := by
  constructor
  · simp [renderUtag, exec, find, findScan, findWalk, writeIndent]
  · decide

/-- C5 as amended: for every path absent from the context stack, both
unescaped-tag and escaped-tag rendering emit nothing and succeed, leaving
the render context and stack unchanged, for every render-context state; for
a path that resolves to `Null`, both succeed and leave the context and stack
unchanged, but the output is the active indent prefix when the line-start
flag is set (`writeIndent rc` — empty only when the indent is empty or the
flag is clear), escaped in the escaped-tag case. -/
theorem C5_missing_and_null_amended (t : Template) (fuel : Nat)
    (rc : RenderContext) (stack : List Data) (path : List String) :
    (find path stack = none →
       renderUtag t fuel rc stack path = .ok (rc, stack, "") ∧
       renderEtag t fuel rc stack path = .ok (rc, stack, "")) ∧
    (find path stack = some .Null →
       renderUtag t fuel rc stack path = .ok (rc, stack, writeIndent rc) ∧
       renderEtag t fuel rc stack path = .ok (rc, stack, escapeHtml (writeIndent rc))) := by
  constructor
  · intro h
    have hu : exec t fuel (.utag path) rc stack = .ok (rc, stack, "") := by
      simp [exec, h]
    refine ⟨hu, ?_⟩
    have hemp : escapeHtml "" = "" := rfl
    simp [renderEtag, exec, hu, Bind.bind, Except.bind, hemp]
  · intro h
    have hu : exec t fuel (.utag path) rc stack = .ok (rc, stack, writeIndent rc) := by
      simp [exec, h]
    refine ⟨hu, ?_⟩
    simp [renderEtag, exec, hu, Bind.bind, Except.bind]

/-- C5 witness: the amended theorem applied at a concrete absent path and a
concrete `Null` path. -/
theorem C5_missing_and_null_amended_witness :
    (find ["y"] [Data.Map [("x", Data.Null)]] = none ∧
      renderUtag tEmpty 1 RenderContext.new [Data.Map [("x", Data.Null)]] ["y"] =
        .ok (RenderContext.new, [Data.Map [("x", Data.Null)]], "")) ∧
    (find ["x"] [Data.Map [("x", Data.Null)]] = some Data.Null ∧
      renderUtag tEmpty 1 RenderContext.new [Data.Map [("x", Data.Null)]] ["x"] =
        .ok (RenderContext.new, [Data.Map [("x", Data.Null)]],
          writeIndent RenderContext.new)) :=
  ⟨⟨rfl,
      ((C5_missing_and_null_amended tEmpty 1 RenderContext.new
        [Data.Map [("x", Data.Null)]] ["y"]).1 rfl).1⟩,
    ⟨rfl,
      ((C5_missing_and_null_amended tEmpty 1 RenderContext.new
        [Data.Map [("x", Data.Null)]] ["x"]).2 rfl).1⟩⟩

/-- C6: when a plain section's path resolves to a `Producer`, the producer
is invoked on the section's captured raw source text (`fdata[1]`), its
output is compiled with the section's original open/close delimiters
(`fdata[0]`, `fdata[2]`) and the template's current partials mapping (this
is `renderFun`), the resulting token list is rendered against the unchanged
render context and stack, the section's static children are never rendered,
and a failure of the nested compile step propagates as the render result. -/
theorem C6_producer_section (t : Template) (fuel : Nat) (rc : RenderContext)
    (stack : List Data) (path : List String) (children : List Token)
    (fdata : List String) (f : String → String)
    (h : find path stack = some (.Fun f)) :
    renderSection t (fuel + 1) rc stack path children fdata =
      match renderFun t (getStr fdata 1) (getStr fdata 0) (getStr fdata 2) f with
      | .error e => .error e
      | .ok tokens => render t fuel rc stack tokens := by
  simp only [renderSection, render]
  cases hc : renderFun t (getStr fdata 1) (getStr fdata 0) (getStr fdata 2) f with
  | error e => simp [exec, h, hc, Bind.bind, Except.bind]
  | ok tokens => simp [exec, h, hc, Bind.bind, Except.bind]

/-- C6 witness: the theorem applied at a concrete producer-valued section
whose static children are non-empty. -/
theorem C6_producer_section_witness :
    find ["f"] [Data.Map [("f", Data.Fun fun s => s)]] =
      some (Data.Fun fun s => s) ∧
    renderSection tEmpty 1 RenderContext.new
        [Data.Map [("f", Data.Fun fun s => s)]] ["f"] [Token.Text "never"] [] =
      match renderFun tEmpty (getStr [] 1) (getStr [] 0) (getStr [] 2)
          (fun s => s) with
      | .error e => .error e
      | .ok tokens =>
        render tEmpty 0 RenderContext.new
          [Data.Map [("f", Data.Fun fun s => s)]] tokens :=
  ⟨rfl,
    C6_producer_section tEmpty 0 RenderContext.new
      [Data.Map [("f", Data.Fun fun s => s)]] ["f"] [Token.Text "never"] []
      (fun s => s) rfl⟩

/-- C7: partial rendering looks the name up in the template's partial
mapping; when absent, nothing is emitted, no error is raised and the render
context and stack are unchanged; when present, the per-occurrence indent is
appended to the active indent prefix for exactly the duration of the
recursive render of the partial's tokens, after which the prefix is restored
to its prior value (the rest of the context and the stack are whatever the
recursive render produced), and errors of the recursive render propagate. -/
theorem C7_partial_frame (t : Template) (fuel : Nat) (rc : RenderContext)
    (stack : List Data) (name indent : String) :
    (t.partials.lookup name = none →
       renderPartial t fuel rc stack name indent = .ok (rc, stack, "")) ∧
    (∀ tokens, t.partials.lookup name = some tokens →
       renderPartial t (fuel + 1) rc stack name indent =
         match render t fuel { rc with indent := rc.indent ++ indent } stack tokens with
         | .error e => .error e
         | .ok r => .ok ({ r.1 with indent := rc.indent }, r.2.1, r.2.2)) := by
  constructor
  · intro h
    simp [renderPartial, exec, h]
  · intro tokens h
    simp only [renderPartial, render]
    cases hr : exec t fuel (.toks tokens) { rc with indent := rc.indent ++ indent } stack with
    | error e => simp [exec, h, hr, Bind.bind, Except.bind]
    | ok r =>
      obtain ⟨rc1, st1, o1⟩ := r
      simp [exec, h, hr, Bind.bind, Except.bind]

/-- A concrete template owning one (empty) partial named `p`; used by the C7
witness. -/
def tOnePartialTemplate : Template :=
  { compile := fun _ _ _ _ => .ok [], tokens := [],
    partials := [("p", [])] }

/-- C7 witness: the theorem applied at an absent name and at the present
name `p`. -/
theorem C7_partial_frame_witness :
    (tOnePartialTemplate.partials.lookup "q" = none ∧
      renderPartial tOnePartialTemplate 1 RenderContext.new [] "q" "  " =
        .ok (RenderContext.new, [], "")) ∧
    (tOnePartialTemplate.partials.lookup "p" = some [] ∧
      renderPartial tOnePartialTemplate 1 RenderContext.new [] "p" "  " =
        match render tOnePartialTemplate 0
            { RenderContext.new with
              indent := RenderContext.new.indent ++ "  " } [] [] with
        | .error e => .error e
        | .ok r => .ok ({ r.1 with indent := RenderContext.new.indent }, r.2.1, r.2.2)) :=
  ⟨⟨rfl, (C7_partial_frame tOnePartialTemplate 1 RenderContext.new [] "q" "  ").1 rfl⟩,
    ⟨rfl, (C7_partial_frame tOnePartialTemplate 0 RenderContext.new [] "p" "  ").2 [] rfl⟩⟩

/-- C8: encountering an `IncompleteSection` token during rendering always
fails with the incomplete-section error, for every template, fuel, render
context, stack and token payload — it is never silently skipped. -/
theorem C8_incomplete_section_fails (t : Template) (fuel : Nat)
    (rc : RenderContext) (stack : List Data) (p : List String) (inverted : Bool)
    (otag : String) (newlined : Bool) :
    renderToken t fuel rc stack (.IncompleteSection p inverted otag newlined) =
      .error .IncompleteSection := by
  simp [renderToken, exec]

/-- C9 counterexample: comparing a `Producer` with `Null` returns not-equal
but logs nothing — the claim's "the comparison is reported (logged)" fails
for this pair (the source logs only when both operands are producers; the
mixed case falls into the silent catch-all arm). -/
theorem C9_counterexample :
    Data.isProducer (Data.Fun fun s => s) = true ∧
    dataEq (Data.Fun fun s => s) Data.Null = (false, []) := by
  constructor
  · rfl
  · simp [dataEq]

/-- C9 as amended: for every pair of `Data` values of which at least one is
a `Producer`, the equality comparison is a total function (so it cannot
panic) returning not-equal, and it is reported (logged) exactly when both
operands are producers; a comparison of a producer with a non-producer is
silently not-equal. -/
theorem C9_producer_eq_amended (d1 d2 : Data)
    (h : d1.isProducer = true ∨ d2.isProducer = true) :
    (dataEq d1 d2).1 = false ∧
    ((dataEq d1 d2).2 ≠ [] ↔ (d1.isProducer = true ∧ d2.isProducer = true)) := by
  cases d1 <;> cases d2 <;> rcases h with h | h <;>
    simp [Data.isProducer] at h <;>
    simp [dataEq, Data.isProducer]

/-- C9 witness: the amended theorem applied at a concrete producer pair. -/
theorem C9_producer_eq_amended_witness :
    ((Data.Fun fun s => s).isProducer = true ∨
      (Data.Fun fun s => s).isProducer = true) ∧
    ((dataEq (Data.Fun fun s => s) (Data.Fun fun s => s)).1 = false ∧
      ((dataEq (Data.Fun fun s => s) (Data.Fun fun s => s)).2 ≠ [] ↔
        ((Data.Fun fun s => s).isProducer = true ∧
          (Data.Fun fun s => s).isProducer = true))) :=
  ⟨Or.inl rfl,
    C9_producer_eq_amended (Data.Fun fun s => s) (Data.Fun fun s => s) (Or.inl rfl)⟩


theorem sectionSeqLoop_stack
    (body : RenderContext → List Data → Except Error (RenderContext × List Data × String))
    (H : ∀ rc stack rc' st' out, body rc stack = .ok (rc', st', out) → st' = stack) :
    ∀ (vs : List Data) (rc : RenderContext) (stack : List Data) (i : Nat)
      (rc' : RenderContext) (st' : List Data) (out : String),
      sectionSeqLoop body rc stack i vs = .ok (rc', st', out) → st' = stack := by
  intro vs
  induction vs with
  | nil =>
    intro rc stack i rc' st' out h
    simp only [sectionSeqLoop] at h
    cases h
    rfl
  | cons v vs ih =>
    intro rc stack i rc' st' out h
    simp only [sectionSeqLoop, Bind.bind, Except.bind] at h
    cases hb : body { rc with anchor := toString i } (v :: stack) with
    | error e => rw [hb] at h; cases h
    | ok r =>
      obtain ⟨rc1, st1, o1⟩ := r
      rw [hb] at h
      dsimp only at h
      cases hl : sectionSeqLoop body { rc1 with anchor := "" } st1.tail (i + 1) vs with
      | error e => rw [hl] at h; cases h
      | ok r2 =>
        obtain ⟨rc2, st2, o2⟩ := r2
        rw [hl] at h
        dsimp only at h
        cases h
        have e1 := H _ _ _ _ _ hb
        have e2 := ih _ st1.tail _ _ _ _ hl
        rw [e2, e1]
        rfl

theorem exec_stack_preserved (t : Template) (fuel : Nat) (call : RCall)
    (rc : RenderContext) (stack : List Data) :
    ∀ rc' st' out, exec t fuel call rc stack = .ok (rc', st', out) → st' = stack := by
  induction fuel, call, rc, stack using exec.induct t with
  | case1 fuel rc stack =>
    intro rc' st' out hexec
    rw [exec.eq_def] at hexec
    dsimp only at hexec
    cases hexec
    rfl
  | case2 fuel rc stack tk rest ih1 ih2 =>
    intro rc' st' out hexec
    rw [exec.eq_def] at hexec
    dsimp only at hexec
    simp only [Bind.bind, Except.bind] at hexec
    cases hb : exec t fuel (.tok tk) rc stack with
    | error e => rw [hb] at hexec; cases hexec
    | ok r =>
      obtain ⟨rc1, st1, o1⟩ := r
      rw [hb] at hexec
      dsimp only at hexec
      cases hb2 : exec t fuel (.toks rest) rc1 st1 with
      | error e => rw [hb2] at hexec; cases hexec
      | ok r2 =>
        obtain ⟨rc2, st2, o2⟩ := r2
        rw [hb2] at hexec
        dsimp only at hexec
        cases hexec
        exact (ih2 _ _ _ _ _ hb2).trans (ih1 _ _ _ hb)
  | case3 fuel rc stack value =>
    intro rc' st' out hexec
    rw [exec.eq_def] at hexec
    dsimp only at hexec
    cases hexec
    rfl
  | case4 fuel rc stack path a ih =>
    intro rc' st' out hexec
    rw [exec.eq_def] at hexec
    dsimp only at hexec
    exact ih rc' st' out hexec
  | case5 fuel rc stack path a ih =>
    intro rc' st' out hexec
    rw [exec.eq_def] at hexec
    dsimp only at hexec
    exact ih rc' st' out hexec
  | case6 fuel rc stack path children a a1 a2 ih =>
    intro rc' st' out hexec
    rw [exec.eq_def] at hexec
    dsimp only at hexec
    exact ih rc' st' out hexec
  | case7 fuel rc stack path children a a1 fdata ih =>
    intro rc' st' out hexec
    rw [exec.eq_def] at hexec
    dsimp only at hexec
    exact ih rc' st' out hexec
  | case8 fuel rc stack name indent a ih =>
    intro rc' st' out hexec
    rw [exec.eq_def] at hexec
    dsimp only at hexec
    exact ih rc' st' out hexec
  | case9 fuel rc stack a a1 a2 a3 =>
    intro rc' st' out hexec
    rw [exec.eq_def] at hexec
    dsimp only at hexec
    cases hexec
  | case10 fuel rc stack path ih =>
    intro rc' st' out hexec
    rw [exec.eq_def] at hexec
    dsimp only at hexec
    simp only [Bind.bind, Except.bind] at hexec
    cases hb : exec t fuel (.utag path) rc stack with
    | error e => rw [hb] at hexec; cases hexec
    | ok r =>
      obtain ⟨rc1, st1, o1⟩ := r
      rw [hb] at hexec
      dsimp only at hexec
      cases hexec
      exact ih _ _ _ hb
  | case11 fuel rc stack path hfind =>
    intro rc' st' out hexec
    rw [exec.eq_def] at hexec
    dsimp only at hexec
    rw [hfind] at hexec
    dsimp only at hexec
    cases hexec
    rfl
  | case12 fuel rc stack path hfind =>
    intro rc' st' out hexec
    rw [exec.eq_def] at hexec
    dsimp only at hexec
    rw [hfind] at hexec
    dsimp only at hexec
    cases hexec
    rfl
  | case13 fuel rc stack path s hfind =>
    intro rc' st' out hexec
    rw [exec.eq_def] at hexec
    dsimp only at hexec
    rw [hfind] at hexec
    dsimp only at hexec
    cases hexec
    rfl
  | case14 fuel rc stack path b hfind =>
    intro rc' st' out hexec
    rw [exec.eq_def] at hexec
    dsimp only at hexec
    rw [hfind] at hexec
    dsimp only at hexec
    cases hexec
    rfl
  | case15 rc stack path f hfind =>
    intro rc' st' out hexec
    rw [exec.eq_def] at hexec
    dsimp only at hexec
    rw [hfind] at hexec
    dsimp only at hexec
    cases hexec
  | case16 rc stack path f fuel' hfind ih =>
    intro rc' st' out hexec
    rw [exec.eq_def] at hexec
    dsimp only at hexec
    rw [hfind] at hexec
    dsimp only at hexec
    simp only [Bind.bind, Except.bind] at hexec
    cases hrf : renderFun t "" "\x7b\x7b" "\x7d\x7d" f with
    | error e => rw [hrf] at hexec; cases hexec
    | ok tokens =>
      rw [hrf] at hexec
      dsimp only at hexec
      cases hb : exec t fuel' (.toks tokens) rc stack with
      | error e => rw [hb] at hexec; cases hexec
      | ok r =>
        obtain ⟨rc1, st1, o1⟩ := r
        rw [hb] at hexec
        dsimp only at hexec
        cases hexec
        exact ih tokens _ _ _ hb
  | case17 fuel rc stack path v2 hfind h1 h2 h3 h4 =>
    intro rc' st' out hexec
    rw [exec.eq_def] at hexec
    dsimp only at hexec
    rw [hfind] at hexec
    cases v2 with
    | Null => exact absurd rfl h1
    | Str s => exact absurd rfl (h2 s)
    | Boolean b => exact absurd rfl (h3 b)
    | Fun f => exact absurd rfl (h4 f)
    | Vec xs => dsimp only at hexec; cases hexec; rfl
    | Map m => dsimp only at hexec; cases hexec; rfl
  | case18 fuel rc stack path children hfind ih =>
    intro rc' st' out hexec
    rw [exec.eq_def] at hexec
    dsimp only at hexec
    rw [hfind] at hexec
    dsimp only at hexec
    exact ih rc' st' out hexec
  | case19 fuel rc stack path children hfind ih =>
    intro rc' st' out hexec
    rw [exec.eq_def] at hexec
    dsimp only at hexec
    rw [hfind] at hexec
    dsimp only at hexec
    exact ih rc' st' out hexec
  | case20 fuel rc stack path children hfind ih =>
    intro rc' st' out hexec
    rw [exec.eq_def] at hexec
    dsimp only at hexec
    rw [hfind] at hexec
    dsimp only at hexec
    exact ih rc' st' out hexec
  | case21 fuel rc stack path children hfind ih =>
    intro rc' st' out hexec
    rw [exec.eq_def] at hexec
    dsimp only at hexec
    rw [hfind] at hexec
    dsimp only at hexec
    exact ih rc' st' out hexec
  | case22 fuel rc stack path children val hne1 hne2 hne3 hfind =>
    intro rc' st' out hexec
    rw [exec.eq_def] at hexec
    dsimp only at hexec
    rw [hfind] at hexec
    cases val with
    | Null => exact absurd rfl hne1
    | Boolean b =>
      cases b with
      | false => exact absurd rfl hne2
      | true => dsimp only at hexec; cases hexec; rfl
    | Vec xs =>
      cases xs with
      | nil => exact absurd rfl hne3
      | cons x xs => dsimp only at hexec; cases hexec; rfl
    | Str s => dsimp only at hexec; cases hexec; rfl
    | Map m => dsimp only at hexec; cases hexec; rfl
    | Fun f => dsimp only at hexec; cases hexec; rfl
  | case23 fuel rc stack path children fdata hfind =>
    intro rc' st' out hexec
    rw [exec.eq_def] at hexec
    dsimp only at hexec
    rw [hfind] at hexec
    dsimp only at hexec
    cases hexec
    rfl
  | case24 fuel rc stack path children fdata hfind =>
    intro rc' st' out hexec
    rw [exec.eq_def] at hexec
    dsimp only at hexec
    rw [hfind] at hexec
    dsimp only at hexec
    cases hexec
    rfl
  | case25 fuel rc stack path children fdata hfind ih =>
    intro rc' st' out hexec
    rw [exec.eq_def] at hexec
    dsimp only at hexec
    rw [hfind] at hexec
    dsimp only at hexec
    exact ih rc' st' out hexec
  | case26 fuel rc stack path children fdata hfind =>
    intro rc' st' out hexec
    rw [exec.eq_def] at hexec
    dsimp only at hexec
    rw [hfind] at hexec
    dsimp only at hexec
    cases hexec
    rfl
  | case27 fuel rc stack path children fdata val hval hfind ih =>
    intro rc' st' out hexec
    rw [exec.eq_def] at hexec
    dsimp only at hexec
    rw [hfind] at hexec
    dsimp only at hexec
    rw [if_pos hval] at hexec
    simp only [Bind.bind, Except.bind] at hexec
    cases hb : exec t fuel (.toks children) rc (Data.Str val :: stack) with
    | error e => rw [hb] at hexec; cases hexec
    | ok r =>
      obtain ⟨rc1, st1, o1⟩ := r
      rw [hb] at hexec
      dsimp only at hexec
      cases hexec
      rw [ih _ _ _ hb]
      rfl
  | case28 fuel rc stack path children fdata val hval hfind =>
    intro rc' st' out hexec
    rw [exec.eq_def] at hexec
    dsimp only at hexec
    rw [hfind] at hexec
    dsimp only at hexec
    rw [if_neg hval] at hexec
    cases hexec
    rfl
  | case29 fuel rc stack path children fdata vs hfind ih =>
    intro rc' st' out hexec
    rw [exec.eq_def] at hexec
    dsimp only at hexec
    rw [hfind] at hexec
    dsimp only at hexec
    exact sectionSeqLoop_stack _
      (fun rcx stx rcy sty o hb => ih rcx stx rcy sty o hb)
      vs rc stack 0 rc' st' out hexec
  | case30 fuel rc stack path children fdata m hfind ih =>
    intro rc' st' out hexec
    rw [exec.eq_def] at hexec
    dsimp only at hexec
    rw [hfind] at hexec
    dsimp only at hexec
    simp only [Bind.bind, Except.bind] at hexec
    cases hb : exec t fuel (.toks children) rc (Data.Map m :: stack) with
    | error e => rw [hb] at hexec; cases hexec
    | ok r =>
      obtain ⟨rc1, st1, o1⟩ := r
      rw [hb] at hexec
      dsimp only at hexec
      cases hexec
      rw [ih _ _ _ hb]
      rfl
  | case31 rc stack path children fdata f hfind =>
    intro rc' st' out hexec
    rw [exec.eq_def] at hexec
    dsimp only at hexec
    rw [hfind] at hexec
    dsimp only at hexec
    cases hexec
  | case32 rc stack path children fdata f fuel' hfind ih =>
    intro rc' st' out hexec
    rw [exec.eq_def] at hexec
    dsimp only at hexec
    rw [hfind] at hexec
    dsimp only at hexec
    simp only [Bind.bind, Except.bind] at hexec
    cases hrf : renderFun t (getStr fdata 1) (getStr fdata 0) (getStr fdata 2) f with
    | error e => rw [hrf] at hexec; cases hexec
    | ok tokens =>
      rw [hrf] at hexec
      dsimp only at hexec
      exact ih tokens rc' st' out hexec
  | case33 fuel rc stack name indent hlook =>
    intro rc' st' out hexec
    rw [exec.eq_def] at hexec
    dsimp only at hexec
    rw [hlook] at hexec
    dsimp only at hexec
    cases hexec
    rfl
  | case34 rc stack name indent tokens hlook =>
    intro rc' st' out hexec
    rw [exec.eq_def] at hexec
    dsimp only at hexec
    rw [hlook] at hexec
    dsimp only at hexec
    cases hexec
  | case35 rc stack name indent tokens hlook fuel' ih =>
    intro rc' st' out hexec
    rw [exec.eq_def] at hexec
    dsimp only at hexec
    rw [hlook] at hexec
    dsimp only at hexec
    simp only [Bind.bind, Except.bind] at hexec
    cases hb : exec t fuel' (.toks tokens)
        { rc with indent := rc.indent ++ indent } stack with
    | error e => rw [hb] at hexec; cases hexec
    | ok r =>
      obtain ⟨rc1, st1, o1⟩ := r
      rw [hb] at hexec
      dsimp only at hexec
      cases hexec
      exact ih _ _ _ hb


/-- C10: context-stack balance — every successful render call returns the
context stack exactly as it was on entry: stated for `render` (token lists),
`renderToken`, and every other entry point of the engine via `exec` (which
covers sections, inverted sections, partials and lambda re-expansion). -/
theorem C10_stack_balance (t : Template) (fuel : Nat) :
    (∀ tokens rc stack rc' st' out,
      render t fuel rc stack tokens = .ok (rc', st', out) → st' = stack) ∧
    (∀ tk rc stack rc' st' out,
      renderToken t fuel rc stack tk = .ok (rc', st', out) → st' = stack) ∧
    (∀ call rc stack rc' st' out,
      exec t fuel call rc stack = .ok (rc', st', out) → st' = stack) :=
  ⟨fun tokens rc stack rc' st' out h =>
      exec_stack_preserved t fuel (.toks tokens) rc stack rc' st' out h,
    fun tk rc stack rc' st' out h =>
      exec_stack_preserved t fuel (.tok tk) rc stack rc' st' out h,
    fun call rc stack rc' st' out h =>
      exec_stack_preserved t fuel call rc stack rc' st' out h⟩

/-- C10 witness: the theorem applied at a concrete successful render. -/
theorem C10_stack_balance_witness :
    render tEmpty 1 RenderContext.new [Data.Null] [Token.Text "hi"] =
      .ok ({ indent := "", line_start := false, anchor := "" }, [Data.Null], "hi") ∧
    ([Data.Null] : List Data) = [Data.Null] := by
  have h : render tEmpty 1 RenderContext.new [Data.Null] [Token.Text "hi"] =
      .ok ({ indent := "", line_start := false, anchor := "" }, [Data.Null], "hi") := by
    simp [render, exec, renderText, writeTrackingNewlines, RenderContext.new,
      Bind.bind, Except.bind]
  exact ⟨h, (C10_stack_balance tEmpty 1).1 [Token.Text "hi"] RenderContext.new
    [Data.Null] _ _ _ h⟩

end Claims

end Mustache
